import Mathlib

/-!
Verification development for the LemmaEducation repository.

The subjects are:
  - the realtime tutor session manager (the useRealtimeTutor hook in
    src/components/TutorAvatar.tsx): its four-state UI machine, the server
    event dispatcher handleServerEvent, the three send operations and
    disconnect;
  - the token-minting route (src/app/api/realtime/token/route.ts);
  - the math notation converter (convertToLaTeX / stripLatexDelimiters).

The hook closes over React state (state, isConnected, transcript) and three
refs (pcRef, dcRef, audioRef).  We bundle these into one record, Session,
and translate each operation as a pure function from a Session to a Session
paired with the list of externally visible actions it performs, in program
order: data-channel send calls (frames), invocations of the onError
callback, and close() calls on the channel and the peer connection.
-/

/-- The four observable tutor states, from TutorAvatar.tsx
(type TutorState = idle | listening | thinking | speaking). -/
inductive TutorState
  | idle
  | listening
  | thinking
  | speaking
deriving DecidableEq, Repr

/-- An RTCDataChannel as the hook observes it: only its readyState string
is consulted (the source compares dc.readyState to the string "open"). -/
structure RTCDataChannel where
  readyState : String
deriving DecidableEq, Repr

/-- One content part of a conversation.item.create frame: either
an input text part or an input image part carrying a data URI, exactly the
two shapes built by sendText / sendImage / sendTextWithImage. -/
inductive ContentPart
  | input_text (text : String)
  | input_image (image_url : String)
deriving DecidableEq, Repr

/-- An outbound JSON frame on the data channel.  The source always sends
conversation.item.create with item.type = "message" and item.role = "user",
so only the content list varies and is recorded here; response.create
carries no payload. -/
inductive ClientFrame
  | conversation_item_create (content : List ContentPart)
  | response_create
deriving DecidableEq, Repr

/-- An externally visible action of a session-manager operation, in program
order: a dc.send of a frame, an onError callback invocation, dc.close(),
pc.close(). -/
inductive Output
  | frame (f : ClientFrame)
  | errorCallback (msg : String)
  | closeChannel
  | closeConnection
deriving DecidableEq, Repr

/-- The bundled state of one useRealtimeTutor instance:
  state, isConnected, transcript are the three React state cells;
  dc models dcRef.current (none = null);
  pc models whether pcRef.current is non-null;
  audioEl models whether audioRef.current is non-null;
  audioSrc models whether that audio element has a srcObject attached. -/
structure Session where
  state : TutorState
  isConnected : Bool
  transcript : String
  dc : Option RTCDataChannel
  pc : Bool
  audioEl : Bool
  audioSrc : Bool
deriving DecidableEq, Repr

/-- An inbound server event as the dispatcher reads it: the type string,
the optional delta payload (read as event.delta with fallback to the empty
string), and the optional error message (read as event.error?.message; a
missing error object and a missing message field both read as none). -/
structure ServerEvent where
  type : String
  delta : Option String
  errorMessage : Option String
deriving DecidableEq, Repr

/-- handleServerEvent from TutorAvatar.tsx: a flat switch on event.type.
Returns the updated session and the list of onError invocations (the only
external action this dispatcher performs).  Unrecognized types fall
through with no effect. -/
def handleServerEvent (s : Session) (e : ServerEvent) : Session × List Output :=
  match e.type with
  | "session.created" | "session.updated" => ({ s with state := .listening }, [])
  | "input_audio_buffer.speech_started" => ({ s with state := .listening }, [])
  | "response.created" => ({ s with state := .thinking, transcript := "" }, [])
  | "response.output_audio_transcript.delta" =>
      ({ s with transcript := s.transcript ++ (e.delta.getD "") }, [])
  | "response.output_audio.delta" => ({ s with state := .speaking }, [])
  | "response.done" | "response.output_audio.done" => ({ s with state := .listening }, [])
  | "response.cancelled" => ({ s with state := .listening }, [])
  | "error" =>
      ({ s with state := .idle },
       [Output.errorCallback (e.errorMessage.getD "An error occurred")])
  | _ => (s, [])

/-- JavaScript String.replace with a plain-string pattern replaces only the
first occurrence of the pattern (used for mimeType.replace with the
pattern "image/" and the empty replacement). -/
def replaceFirst (pat repl : List Char) : List Char → List Char
  | [] => if pat = [] then repl else []
  | c :: rest =>
      if (c :: rest).take pat.length = pat then repl ++ (c :: rest).drop pat.length
      else c :: replaceFirst pat repl rest

/-- The data URI built by sendImage / sendTextWithImage:
data:image/{format};base64,{data} with format = mimeType with its first
"image/" removed. -/
def imageDataUrl (base64Data mimeType : String) : String :=
  "data:image/" ++ String.mk (replaceFirst "image/".data [] mimeType.data) ++
    ";base64," ++ base64Data

/-- sendText from TutorAvatar.tsx: a silent no-op unless the data channel
exists and its readyState is "open"; otherwise sends one
conversation.item.create frame with a single input_text part, then one
response.create frame, then sets state to thinking. -/
def sendText (s : Session) (text : String) : Session × List Output :=
  match s.dc with
  | none => (s, [])
  | some dc =>
      if dc.readyState ≠ "open" then (s, [])
      else
        ({ s with state := .thinking },
         [Output.frame (.conversation_item_create [.input_text text]),
          Output.frame .response_create])

/-- sendImage from TutorAvatar.tsx: same guard; sends one
conversation.item.create frame with a single input_image part carrying the
data URI, then one response.create frame, then sets state to thinking. -/
def sendImage (s : Session) (base64Data mimeType : String) : Session × List Output :=
  match s.dc with
  | none => (s, [])
  | some dc =>
      if dc.readyState ≠ "open" then (s, [])
      else
        ({ s with state := .thinking },
         [Output.frame (.conversation_item_create
            [.input_image (imageDataUrl base64Data mimeType)]),
          Output.frame .response_create])

/-- sendTextWithImage from TutorAvatar.tsx: same guard; both content parts
go in one conversation.item.create frame (text part first), followed by
one response.create frame, then state is set to thinking. -/
def sendTextWithImage (s : Session) (text base64Data mimeType : String) :
    Session × List Output :=
  match s.dc with
  | none => (s, [])
  | some dc =>
      if dc.readyState ≠ "open" then (s, [])
      else
        ({ s with state := .thinking },
         [Output.frame (.conversation_item_create
            [.input_text text,
             .input_image (imageDataUrl base64Data mimeType)]),
          Output.frame .response_create])

/-- disconnect from TutorAvatar.tsx: closes and nulls the data channel if
present, closes and nulls the peer connection if present, detaches the
audio element's srcObject if the element exists (the element itself is
kept), then sets isConnected to false and state to idle. -/
def disconnect (s : Session) : Session × List Output :=
  let dcOut : List Output := match s.dc with
    | some _ => [Output.closeChannel]
    | none => []
  let pcOut : List Output := if s.pc then [Output.closeConnection] else []
  ({ s with
      dc := none
      pc := false
      audioSrc := if s.audioEl then false else s.audioSrc
      isConnected := false
      state := .idle },
   dcOut ++ pcOut)

/-- Recognizes whether an Output is an onError callback invocation. -/
def Output.isErrorCallback : Output → Bool
  | .errorCallback _ => true
  | _ => false

/-!
Token-minting route (src/app/api/realtime/token/route.ts).

POST reads process.env.OPENAI_API_KEY (modelled as an Option String
parameter; the JavaScript truthiness test also rejects the empty string)
and performs one fetch to the upstream client-secrets endpoint (modelled
as an Except parameter: the error case is a thrown fetch rejection, which
the route catches).  The upstream response exposes its status, its text
body, and the optional string "value" field of its JSON body.
-/

/-- The upstream response of the client-secrets exchange as the route reads
it: numeric status, raw text body (read on the failure path), and the
optional value field of the parsed JSON body (read on the success path;
none also covers a non-string or missing field, and the JavaScript
truthiness test rejects an empty-string value). -/
structure UpstreamResponse where
  status : Nat
  body : String
  value : Option String
deriving DecidableEq, Repr

/-- A response body produced by the route: either the success payload
with the value field, or a failure payload with an error message and an
optional details string. -/
inductive TokenRouteBody
  | success (value : String)
  | failure (error : String) (details : Option String)
deriving DecidableEq, Repr

/-- An HTTP response of the route: status code plus JSON body
(NextResponse.json defaults to status 200 when none is given). -/
structure RouteResponse where
  status : Nat
  body : TokenRouteBody
deriving DecidableEq, Repr

/-- Response.ok of the fetch API: status in the inclusive range 200-299. -/
def responseOk (status : Nat) : Bool :=
  200 ≤ status && status ≤ 299

/-- POST from src/app/api/realtime/token/route.ts.  In source order:
missing (or falsy) OPENAI_API_KEY gives a 500 configuration failure; a
thrown fetch gives the catch-branch 500 failure; a non-ok upstream
response echoes the upstream status with the upstream text body as
details; an ok response whose JSON lacks a truthy value field gives a 500
failure; otherwise the value is returned with the default 200 status. -/
def tokenPOST (apiKey : Option String) (upstream : Except Unit UpstreamResponse) :
    RouteResponse :=
  match apiKey with
  | none => ⟨500, .failure "OPENAI_API_KEY is not configured" none⟩
  | some key =>
      if key = "" then ⟨500, .failure "OPENAI_API_KEY is not configured" none⟩
      else
        match upstream with
        | .error _ => ⟨500, .failure "Failed to create token" none⟩
        | .ok r =>
            if ¬ responseOk r.status then
              ⟨r.status, .failure "Failed to create token" (some r.body)⟩
            else
              match r.value with
              | none => ⟨500, .failure "No token in response" none⟩
              | some v =>
                  if v = "" then ⟨500, .failure "No token in response" none⟩
                  else ⟨200, .success v⟩

/-!
Math notation converter (src/unnamed/part_006, the math parser module).

convertToLaTeX applies two global regex replacements,
(\w+)^(\d+|\w+) and (\w+)_(\d+|\w+) (the caret escaped in the source), each
rewriting a match of base, separator, exponent to base, separator, braced
exponent, and wraps the result in dollar delimiters.  We embed the two
replacements exactly, for these two specific patterns, over lists of
characters:
  - \w is ASCII letters, digits and underscore; \d is ASCII digits;
  - a match at a position takes the greedy (backtracking) longest prefix
    of word characters as the base, requires the separator right after it,
    and then the first alternative that applies: a maximal digit run when
    the next character is a digit, otherwise a maximal word run (ordered
    alternation, so the digit run may stop before the word run would);
  - the scan finds the leftmost match, emits the rewritten text, and
    resumes right after the match; with no match at a position it moves
    one character forward.
-/

/-- JavaScript regex \w: ASCII letters, ASCII digits and the underscore. -/
def isWordChar (c : Char) : Bool :=
  c.isAlphanum || c == '_'

/-- Whitespace removed by String.trim, restricted to the ASCII whitespace
characters (the Unicode space characters trim also removes do not occur in
this development). -/
def isJsWhitespace (c : Char) : Bool :=
  c == ' ' || c == '\t' || c == '\n' || c == '\r' || c == '\x0b' || c == '\x0c'

/-- String.trim: removes leading and trailing whitespace. -/
def jsTrim (l : List Char) : List Char :=
  ((l.dropWhile isJsWhitespace).reverse.dropWhile isJsWhitespace).reverse

/-- String.startsWith on character lists. -/
def startsWithL (pat l : List Char) : Bool :=
  decide (l.take pat.length = pat)

/-- String.endsWith on character lists. -/
def endsWithL (pat l : List Char) : Bool :=
  decide (l.drop (l.length - pat.length) = pat)

/-- The character at index i, tested for membership in \w (false past the
end of the list). -/
def wordAt (l : List Char) (i : Nat) : Bool :=
  match l.get? i with
  | some c => isWordChar c
  | none => false

/-- A base length k is viable for the pattern (\w+)sep(\d+|\w+) anchored at
the head of l when the separator sits at index k and a word character (the
first character the second group must consume) sits at index k+1.  The
base itself, l[0..k), is all word characters whenever k is at most the
length of the maximal word prefix, which is how findK is invoked. -/
def kCand (sep : Char) (l : List Char) (k : Nat) : Bool :=
  decide (l.get? k = some sep) && wordAt l (k + 1)

/-- Greedy base search: the largest viable base length between n and 1,
mirroring how the backtracking (\w+) group tries its longest capture
first.  Invoked with n = the maximal word-prefix length. -/
def findK (sep : Char) (l : List Char) : Nat → Option Nat
  | 0 => none
  | k + 1 => if kCand sep l (k + 1) then some (k + 1) else findK sep l k

/-- Attempts to match (\w+)sep(\d+|\w+) anchored at the head of l.
Returns (base capture, second capture, rest of the input after the match).
The second group follows the ordered alternation of the source pattern:
a maximal digit run when the character after the separator is a digit,
otherwise a maximal word run. -/
def tryMatch (sep : Char) (l : List Char) : Option (List Char × List Char × List Char) :=
  match findK sep l (l.takeWhile isWordChar).length with
  | none => none
  | some k =>
      let tail := l.drop (k + 1)
      let grp :=
        match tail with
        | [] => []
        | c :: _ => if c.isDigit then tail.takeWhile Char.isDigit else tail.takeWhile isWordChar
      some (l.take k, grp, tail.drop grp.length)

/-- One global replacement pass of (\w+)sep(\d+|\w+) with the rewrite
base sep brace grp brace, driven by fuel.  Every step consumes at least
one character of l, so fuel = the length of the original input (how
regexReplace invokes it) never runs out; the fuel-zero branch returns its
argument untouched and is unreachable from regexReplace.  The braces in
the rewrite are written with character escapes: \x7b is the left and \x7d
the right brace. -/
def regexReplaceAux (sep : Char) : Nat → List Char → List Char
  | 0, l => l
  | _ + 1, [] => []
  | fuel + 1, c :: rest =>
      match tryMatch sep (c :: rest) with
      | some (base, grp, rem) =>
          base ++ sep :: '\x7b' :: (grp ++ '\x7d' :: regexReplaceAux sep fuel rem)
      | none => c :: regexReplaceAux sep fuel rest

/-- String.prototype.replace with the global pattern (\w+)sep(\d+|\w+) and
the rewrite base sep \x7b grp \x7d, as used with sep = the caret and
sep = the underscore in convertToLaTeX (whose replacement callback returns
the same braced text in both of its branches). -/
def regexReplace (sep : Char) (l : List Char) : List Char :=
  regexReplaceAux sep l.length l

/-- One anchored-pair removal of convertToLaTeX, e.g. the global regex
that deletes a leading dollar and a trailing dollar (each anchored, each
at most once): remove pat1 if it heads the list, then remove pat2 if it
ends what is left. -/
def stripAnchoredPair (pat1 pat2 l : List Char) : List Char :=
  let l1 := if startsWithL pat1 l then l.drop pat1.length else l
  if endsWithL pat2 l1 then l1.take (l1.length - pat2.length) else l1

/-- convertToLaTeX from the math parser, on character lists.  Empty trim
gives the empty output; a recognized leading delimiter causes the three
anchored delimiter removals before processing; then the superscript pass
runs before the subscript pass; both end branches of the source wrap the
result in dollar signs. -/
def convertToLaTeXChars (input : List Char) : List Char :=
  if jsTrim input = [] then []
  else
    let trimmed := jsTrim input
    let hasDelim := startsWithL ['$'] trimmed || startsWithL ['\\', '('] trimmed ||
      startsWithL ['\\', '['] trimmed
    let processed :=
      if hasDelim then
        stripAnchoredPair ['\\', '['] ['\\', ']']
          (stripAnchoredPair ['\\', '('] ['\\', ')']
            (stripAnchoredPair ['$'] ['$'] trimmed))
      else trimmed
    '$' :: (regexReplace '_' (regexReplace '^' processed) ++ ['$'])

/-- convertToLaTeX on strings (a String in Lean is its list of
characters). -/
def convertToLaTeX (input : String) : String :=
  String.mk (convertToLaTeXChars input.data)

/-- stripLatexDelimiters from the math parser, on character lists: trims,
then strips exactly one recognized delimiter pair if one wraps the trimmed
input, trimming the interior (the slice with negative end index is the
take of all but the last one or two characters followed by the drop of the
first one or two); otherwise returns the trimmed input. -/
def stripLatexDelimitersChars (latex : List Char) : List Char :=
  let trimmed := jsTrim latex
  if startsWithL ['$'] trimmed && endsWithL ['$'] trimmed then
    jsTrim ((trimmed.take (trimmed.length - 1)).drop 1)
  else if startsWithL ['\\', '('] trimmed && endsWithL ['\\', ')'] trimmed then
    jsTrim ((trimmed.take (trimmed.length - 2)).drop 2)
  else if startsWithL ['\\', '['] trimmed && endsWithL ['\\', ']'] trimmed then
    jsTrim ((trimmed.take (trimmed.length - 2)).drop 2)
  else trimmed

/-- stripLatexDelimiters on strings. -/
def stripLatexDelimiters (latex : String) : String :=
  String.mk (stripLatexDelimitersChars latex.data)

/-- Whether one of the three recognized delimiter pairs wraps the list:
the disjunction of the three conditions stripLatexDelimiters tests on the
trimmed input. -/
def hasDelimPair (t : List Char) : Bool :=
  (startsWithL ['$'] t && endsWithL ['$'] t) ||
    (startsWithL ['\\', '('] t && endsWithL ['\\', ')'] t) ||
    (startsWithL ['\\', '['] t && endsWithL ['\\', ']'] t)

/-- Modelled from the spec for comparison: the braced form the round-trip
claim expects for a single shorthand pattern, base sep exp with braces
around the exponent (\x7b and \x7d are the braces). -/
def specBracedForm (base : List Char) (sep : Char) (exp : List Char) : List Char :=
  base ++ sep :: '\x7b' :: (exp ++ ['\x7d'])

/-- The exponent shapes on which the ordered alternation (\d+|\w+)
captures the whole run: either the run is entirely digits, or it does not
begin with a digit. -/
def goodExp (exp : List Char) : Bool :=
  match exp with
  | [] => true
  | c :: _ => !c.isDigit || exp.all Char.isDigit

/-- A concrete connected session with an open data channel, used by the
witnesses. -/
def sessionOpen : Session :=
  { state := .listening, isConnected := true, transcript := "",
    dc := some ⟨"open"⟩, pc := true, audioEl := true, audioSrc := true }

/-- A concrete session with no data channel, used by the witnesses. -/
def sessionNoChannel : Session :=
  { state := .listening, isConnected := false, transcript := "",
    dc := none, pc := false, audioEl := false, audioSrc := false }

/-- An inbound transcript-fragment event carrying delta d. -/
def deltaEvent (d : String) : ServerEvent :=
  { type := "response.output_audio_transcript.delta", delta := some d,
    errorMessage := none }

/-!
Theorems.  Each claim of the specification is settled by exactly one
theorem below; helper lemmas for the notation converter precede the claim
theorems that use them.
-/

/-- Claim C1: every send operation (text-only, image-only, text-with-image)
invoked while the message channel is open enqueues exactly two frames in
fixed order, first one conversation.item.create frame carrying the
message, then one response.create frame, and sets the observable state to
thinking immediately (the transition is part of the send call itself,
before and independent of any server acknowledgment). -/
theorem sendOps_enqueue_two_frames_then_thinking (s : Session) (dc : RTCDataChannel)
    (hdc : s.dc = some dc) (hopen : dc.readyState = "open")
    (text base64Data mimeType : String) :
    sendText s text =
      ({ s with state := .thinking },
       [Output.frame (.conversation_item_create [.input_text text]),
        Output.frame .response_create])
    ∧ sendImage s base64Data mimeType =
      ({ s with state := .thinking },
       [Output.frame (.conversation_item_create
          [.input_image (imageDataUrl base64Data mimeType)]),
        Output.frame .response_create])
    ∧ sendTextWithImage s text base64Data mimeType =
      ({ s with state := .thinking },
       [Output.frame (.conversation_item_create
          [.input_text text, .input_image (imageDataUrl base64Data mimeType)]),
        Output.frame .response_create]) := by
  refine ⟨?_, ?_, ?_⟩ <;> simp [sendText, sendImage, sendTextWithImage, hdc, hopen]

/-- Witness for C1: the text-only send on a concrete open session. -/
theorem sendOps_enqueue_two_frames_then_thinking_witness :
    sendText sessionOpen "2+2" =
      ({ sessionOpen with state := .thinking },
       [Output.frame (.conversation_item_create [.input_text "2+2"]),
        Output.frame .response_create]) :=
  (sendOps_enqueue_two_frames_then_thinking sessionOpen ⟨"open"⟩ rfl rfl
    "2+2" "QUJD" "image/png").1

/-- Claim C2: an inbound error event, from any state, moves the state to
idle and invokes the error callback exactly once, with the event message
when present and with the fixed fallback text otherwise. -/
theorem errorEvent_idle_and_single_callback (s : Session) (d : Option String)
    (msg : String) :
    handleServerEvent s { type := "error", delta := d, errorMessage := some msg } =
      ({ s with state := .idle }, [Output.errorCallback msg])
    ∧ handleServerEvent s { type := "error", delta := d, errorMessage := none } =
      ({ s with state := .idle }, [Output.errorCallback "An error occurred"]) :=
  ⟨rfl, rfl⟩

/-- Claim C3: an inbound response.created event resets the accumulated
transcript to the empty string, whatever it held before, and sets the
state to thinking. -/
theorem responseStarted_resets_transcript (s : Session) (d m : Option String) :
    handleServerEvent s { type := "response.created", delta := d, errorMessage := m } =
      ({ s with state := .thinking, transcript := "" }, []) :=
  rfl

/-- Claim C4: every send operation invoked while the message channel is
absent or not open is a silent no-op: the session is returned unchanged
and the action list is empty, so no frame is enqueued and no error
callback is invoked. -/
theorem sendOps_noop_when_channel_not_open (s : Session)
    (h : s.dc = none ∨ ∃ dc, s.dc = some dc ∧ dc.readyState ≠ "open")
    (text base64Data mimeType : String) :
    sendText s text = (s, []) ∧ sendImage s base64Data mimeType = (s, [])
    ∧ sendTextWithImage s text base64Data mimeType = (s, []) := by
  rcases h with h | ⟨dc, hdc, hne⟩
  · exact ⟨by simp [sendText, h], by simp [sendImage, h],
      by simp [sendTextWithImage, h]⟩
  · exact ⟨by simp [sendText, hdc, hne], by simp [sendImage, hdc, hne],
      by simp [sendTextWithImage, hdc, hne]⟩

/-- Witness for C4: the text-only send on a concrete session without a
channel. -/
theorem sendOps_noop_when_channel_not_open_witness :
    sendText sessionNoChannel "2+2" = (sessionNoChannel, []) :=
  (sendOps_noop_when_channel_not_open sessionNoChannel (Or.inl rfl)
    "2+2" "QUJD" "image/png").1

/-- Claim C5: disconnect is idempotent: a second disconnect right after a
first one performs no action at all (in particular no second close of the
channel or the connection, both handles being already released) and the
session stays exactly as the first disconnect left it, with state idle. -/
theorem disconnect_idempotent (s : Session) :
    disconnect ((disconnect s).1) = ((disconnect s).1, [])
    ∧ ((disconnect s).1).state = .idle := by
  constructor
  · cases h : s.dc <;> by_cases hpc : s.pc <;> by_cases ha : s.audioEl <;>
      simp [disconnect, h, hpc, ha]
  · simp [disconnect]

/-- Claim C6: an inbound transcript-fragment event appends exactly its
delta payload to the end of the transcript and changes nothing else (the
resulting session differs only in the transcript field and no action is
performed); and the concrete fragment sequence of the specification
scenario, arriving on an empty transcript, accumulates to the full
sentence. -/
theorem transcriptDelta_appends_only (s : Session) (d : String) :
    handleServerEvent s (deltaEvent d) = ({ s with transcript := s.transcript ++ d }, [])
    ∧ ((handleServerEvent
         ((handleServerEvent
            ((handleServerEvent { s with transcript := "" } (deltaEvent "The")).1)
            (deltaEvent " answer")).1)
         (deltaEvent " is 4")).1).transcript = "The answer is 4" :=
  ⟨rfl, rfl⟩

/-- Claim C9: the token route returns the minted value with status 200 on
success; a missing key gives the configuration failure with status 500
(not a 2xx status); a non-ok upstream exchange echoes the upstream status
(itself not 2xx) with the upstream body as details; an ok exchange without
a value field gives the protocol failure with status 500. -/
theorem tokenPOST_contract :
    (∀ up, tokenPOST none up = ⟨500, .failure "OPENAI_API_KEY is not configured" none⟩)
    ∧ responseOk 500 = false
    ∧ (∀ (key : String) (r : UpstreamResponse), key ≠ "" → responseOk r.status = false →
        tokenPOST (some key) (.ok r) =
          ⟨r.status, .failure "Failed to create token" (some r.body)⟩)
    ∧ (∀ (key : String) (r : UpstreamResponse), key ≠ "" → responseOk r.status = true →
        r.value = none →
        tokenPOST (some key) (.ok r) = ⟨500, .failure "No token in response" none⟩)
    ∧ (∀ (key v : String) (r : UpstreamResponse), key ≠ "" → responseOk r.status = true →
        r.value = some v → v ≠ "" →
        tokenPOST (some key) (.ok r) = ⟨200, .success v⟩) := by
  refine ⟨fun up => rfl, rfl, ?_, ?_, ?_⟩
  · intro key r hk hok
    simp [tokenPOST, hk, hok]
  · intro key r hk hok hv
    simp [tokenPOST, hk, hok, hv]
  · intro key v r hk hok hv hne
    simp [tokenPOST, hk, hok, hv, hne]

/-- Witness for C9: a concrete non-ok upstream exchange. -/
theorem tokenPOST_contract_witness :
    tokenPOST (some "sk-test") (.ok ⟨404, "upstream says no", none⟩) =
      ⟨404, .failure "Failed to create token" (some "upstream says no")⟩ :=
  tokenPOST_contract.2.2.1 "sk-test" ⟨404, "upstream says no", none⟩
    (by decide) (by decide)

/-- Claim C10: handling an inbound error event does not tear the session
down: the channel and connection handles and the connected flag are left
exactly as they were and the transcript is untouched (the session changes
only in its state field, set to idle) while the error callback fires
exactly once; moreover no inbound event ever closes the channel or the
connection or changes the held handles, so teardown can only come from the
disconnect operation (channel closure invokes disconnect in the source). -/
theorem errorEvent_preserves_connection (s : Session) (e : ServerEvent)
    (d m : Option String) :
    (handleServerEvent s { type := "error", delta := d, errorMessage := m }).1 =
      { s with state := .idle }
    ∧ (handleServerEvent s { type := "error", delta := d, errorMessage := m }).2 =
      [Output.errorCallback (m.getD "An error occurred")]
    ∧ (handleServerEvent s e).1.dc = s.dc
    ∧ (handleServerEvent s e).1.pc = s.pc
    ∧ (handleServerEvent s e).1.isConnected = s.isConnected
    ∧ (handleServerEvent s e).2.all Output.isErrorCallback = true := by
  refine ⟨rfl, rfl, ?_, ?_, ?_, ?_⟩ <;>
    · unfold handleServerEvent
      split <;> simp [Output.isErrorCallback]

/-- A list whose elements all fail p is untouched by dropWhile. -/
theorem dropWhile_eq_self_of_all {p : Char → Bool} {l : List Char}
    (h : ∀ c ∈ l, p c = false) : l.dropWhile p = l := by
  cases l with
  | nil => rfl
  | cons c rest => simp [List.dropWhile_cons, h c (List.mem_cons_self c rest)]

/-- A list with no whitespace is untouched by trim. -/
theorem jsTrim_eq_self_of_no_ws {l : List Char}
    (h : ∀ c ∈ l, isJsWhitespace c = false) : jsTrim l = l := by
  unfold jsTrim
  rw [dropWhile_eq_self_of_all h, dropWhile_eq_self_of_all, List.reverse_reverse]
  intro c hc
  exact h c (List.mem_reverse.mp hc)

/-- A list whose first and last characters are not whitespace is untouched
by trim, whatever sits in between. -/
theorem jsTrim_keep {x y : Char} (hx : isJsWhitespace x = false)
    (hy : isJsWhitespace y = false) (m : List Char) :
    jsTrim (x :: (m ++ [y])) = x :: (m ++ [y]) := by
  unfold jsTrim
  rw [List.dropWhile_cons]
  simp only [hx, Bool.false_eq_true, if_false]
  have h1 : (x :: (m ++ [y])).reverse = y :: (m.reverse ++ [x]) := by simp
  rw [h1, List.dropWhile_cons]
  simp [hy]

/-- An alphanumeric character differs from every non-alphanumeric one. -/
theorem ne_of_isAlphanum {c d : Char} (h : c.isAlphanum = true)
    (hd : d.isAlphanum = false) : c ≠ d := by
  intro he
  rw [he, hd] at h
  exact Bool.false_ne_true h

/-- Alphanumeric characters are not whitespace. -/
theorem not_ws_of_isAlphanum {c : Char} (h : c.isAlphanum = true) :
    isJsWhitespace c = false := by
  have h1 : c ≠ ' ' := ne_of_isAlphanum h (by decide)
  have h2 : c ≠ '\t' := ne_of_isAlphanum h (by decide)
  have h3 : c ≠ '\n' := ne_of_isAlphanum h (by decide)
  have h4 : c ≠ '\r' := ne_of_isAlphanum h (by decide)
  have h5 : c ≠ '\x0b' := ne_of_isAlphanum h (by decide)
  have h6 : c ≠ '\x0c' := ne_of_isAlphanum h (by decide)
  simp [isJsWhitespace, h1, h2, h3, h4, h5, h6]

/-- Alphanumeric characters are word characters. -/
theorem wordChar_of_isAlphanum {c : Char} (h : c.isAlphanum = true) :
    isWordChar c = true := by simp [isWordChar, h]

/-- Digits are word characters. -/
theorem wordChar_of_isDigit {c : Char} (h : c.isDigit = true) :
    isWordChar c = true := by
  simp [isWordChar, Char.isAlphanum, h]

/-- A list whose elements all satisfy p is its own takeWhile. -/
theorem takeWhile_eq_self_of_all {p : Char → Bool} {l : List Char}
    (h : ∀ c ∈ l, p c = true) : l.takeWhile p = l := by
  induction l with
  | nil => rfl
  | cons c rest ih =>
      rw [List.takeWhile_cons, if_pos (h c (List.mem_cons_self c rest))]
      rw [ih fun d hd => h d (List.mem_cons_of_mem c hd)]

/-- takeWhile stops exactly at the first failing element. -/
theorem takeWhile_append_stop {p : Char → Bool} {A B : List Char} {x : Char}
    (hA : ∀ c ∈ A, p c = true) (hx : p x = false) :
    (A ++ x :: B).takeWhile p = A := by
  induction A with
  | nil => simp [List.takeWhile_cons, hx]
  | cons a A2 ih =>
      rw [List.cons_append, List.takeWhile_cons, if_pos (hA a (List.mem_cons_self a A2))]
      rw [ih fun d hd => hA d (List.mem_cons_of_mem a hd)]

/-- The element right after the block A in A ++ x :: B. -/
theorem get?_append_mid {A B : List Char} {x : Char} :
    (A ++ x :: B).get? A.length = some x := by
  rw [List.get?_append_right (Nat.le_refl _)]
  simp

/-- The elements past the separator position in A ++ x :: B are those of B. -/
theorem get?_append_after {A B : List Char} {x : Char} (n : Nat) :
    (A ++ x :: B).get? (A.length + 1 + n) = B.get? n := by
  rw [List.get?_append_right (by omega)]
  have h : A.length + 1 + n - A.length = n + 1 := by omega
  rw [h]
  rfl

/-- Dropping past the separator of A ++ x :: B leaves B. -/
theorem drop_append_mid {A B : List Char} {x : Char} :
    (A ++ x :: B).drop (A.length + 1) = B := by
  have h : A ++ x :: B = (A ++ [x]) ++ B := by simp
  have h2 : A.length + 1 = (A ++ [x]).length := by simp
  rw [h, h2, List.drop_left]

/-- Taking the block A of A ++ x :: B gives A. -/
theorem take_append_mid {A B : List Char} {x : Char} :
    (A ++ x :: B).take A.length = A :=
  List.take_left A (x :: B)

/-- What a successful findK returns: a viable base length within range. -/
theorem findK_sound {sep : Char} {l : List Char} {n k : Nat}
    (h : findK sep l n = some k) : kCand sep l k = true ∧ 1 ≤ k ∧ k ≤ n := by
  induction n with
  | zero => simp [findK] at h
  | succ m ih =>
      rw [findK] at h
      by_cases hc : kCand sep l (m + 1) = true
      · rw [if_pos hc] at h
        injection h with h2
        subst h2
        exact ⟨hc, by omega, Nat.le_refl _⟩
      · rw [if_neg hc] at h
        obtain ⟨h1, h2, h3⟩ := ih h
        exact ⟨h1, h2, by omega⟩

/-- findK finds exactly the largest viable base length: if k is viable and
everything above k up to the start n fails, the search returns k. -/
theorem findK_exact {sep : Char} {l : List Char} {k : Nat}
    (hk : kCand sep l k = true) (h1 : 1 ≤ k) : ∀ n, k ≤ n →
    (∀ j, k < j → j ≤ n → kCand sep l j = false) → findK sep l n = some k := by
  intro n
  induction n with
  | zero => intro h; omega
  | succ m ih =>
      intro hle habove
      rw [findK]
      by_cases he : k = m + 1
      · subst he
        rw [if_pos hk]
      · have hf : kCand sep l (m + 1) = false := habove (m + 1) (by omega) (Nat.le_refl _)
        rw [if_neg (by rw [hf]; exact Bool.false_ne_true)]
        exact ih (by omega) fun j hj1 hj2 => habove j hj1 (by omega)

/-- The anchored match on a single well-formed pattern A sep B (A, B
nonempty alphanumeric, B of a shape the ordered alternation captures
whole) succeeds with base A, second group B and empty rest. -/
theorem tryMatch_single {A B : List Char} {sep : Char}
    (hsep : sep = '^' ∨ sep = '_') (hA : A ≠ []) (hB : B ≠ [])
    (hAa : ∀ c ∈ A, c.isAlphanum = true) (hBa : ∀ c ∈ B, c.isAlphanum = true)
    (hG : goodExp B = true) :
    tryMatch sep (A ++ sep :: B) = some (A, B, []) := by
  obtain ⟨b, B2, rfl⟩ : ∃ b B2, B = b :: B2 := by
    cases B with
    | nil => exact absurd rfl hB
    | cons b B2 => exact ⟨b, B2, rfl⟩
  have hsepnal : sep.isAlphanum = false := by
    rcases hsep with h | h <;> rw [h] <;> decide
  have hAw : ∀ c ∈ A, isWordChar c = true := fun c hc => wordChar_of_isAlphanum (hAa c hc)
  have hkc : kCand sep (A ++ sep :: (b :: B2)) A.length = true := by
    unfold kCand wordAt
    rw [get?_append_mid]
    have hb : (A ++ sep :: (b :: B2)).get? (A.length + 1) = some b := by
      have h0 := get?_append_after (A := A) (B := b :: B2) (x := sep) 0
      simpa using h0
    rw [hb]
    simp [wordChar_of_isAlphanum (hBa b (List.mem_cons_self b B2))]
  have hApos : 1 ≤ A.length := by
    cases A with
    | nil => exact absurd rfl hA
    | cons a A2 => simp
  have hfind : findK sep (A ++ sep :: (b :: B2))
      ((A ++ sep :: (b :: B2)).takeWhile isWordChar).length = some A.length := by
    rcases hsep with h | h
    · have hxw : isWordChar sep = false := by rw [h]; decide
      rw [takeWhile_append_stop hAw hxw]
      exact findK_exact hkc hApos A.length (Nat.le_refl _) fun j hj1 hj2 => by omega
    · have hall : ∀ c ∈ A ++ sep :: (b :: B2), isWordChar c = true := by
        intro c hc
        rcases List.mem_append.mp hc with hc | hc
        · exact hAw c hc
        · rcases List.mem_cons.mp hc with hc | hc
          · rw [hc, h]; decide
          · exact wordChar_of_isAlphanum (hBa c hc)
      rw [takeWhile_eq_self_of_all hall]
      have hlen : (A ++ sep :: (b :: B2)).length = A.length + (b :: B2).length + 1 := by
        simp [List.length_append]
        omega
      apply findK_exact hkc hApos
      · omega
      · intro j hj1 hj2
        have hne : (A ++ sep :: (b :: B2)).get? j ≠ some sep := by
          by_cases hj3 : j < (A ++ sep :: (b :: B2)).length
          · obtain ⟨n, rfl⟩ : ∃ n, j = A.length + 1 + n := ⟨j - (A.length + 1), by omega⟩
            rw [get?_append_after]
            have hlt : n < (b :: B2).length := by omega
            rw [List.get?_eq_get hlt]
            intro hcontra
            injection hcontra with hc
            have hmem : (b :: B2).get ⟨n, hlt⟩ ∈ b :: B2 := List.get_mem _ _ _
            exact ne_of_isAlphanum (hBa _ hmem) hsepnal hc
          · rw [List.get?_eq_none.mpr (by omega)]
            exact fun hcontra => Option.noConfusion hcontra
        unfold kCand
        rw [decide_eq_false hne]
        rfl
  unfold tryMatch
  rw [hfind]
  simp only [drop_append_mid, take_append_mid]
  by_cases hd : b.isDigit = true
  · have hall : ∀ c ∈ b :: B2, Char.isDigit c = true := by
      simp only [goodExp, hd, Bool.not_true, Bool.false_or, List.all_eq_true] at hG
      exact hG
    rw [if_pos hd, takeWhile_eq_self_of_all hall, List.drop_length]
  · rw [if_neg hd,
      takeWhile_eq_self_of_all fun c hc => wordChar_of_isAlphanum (hBa c hc),
      List.drop_length]

/-- The replacement pass leaves the empty list empty, whatever the fuel. -/
theorem regexReplaceAux_nil (sep : Char) (f : Nat) : regexReplaceAux sep f [] = [] := by
  cases f <;> rfl

/-- With no occurrence of the separator there is no match. -/
theorem tryMatch_none_of_not_mem {sep : Char} {l : List Char} (h : sep ∉ l) :
    tryMatch sep l = none := by
  unfold tryMatch
  cases hf : findK sep l (l.takeWhile isWordChar).length with
  | none => rfl
  | some k =>
      exfalso
      obtain ⟨hk, _, _⟩ := findK_sound hf
      unfold kCand at hk
      rw [Bool.and_eq_true] at hk
      exact h (List.get?_mem (of_decide_eq_true hk.1))

/-- With no occurrence of the separator the replacement pass is the
identity. -/
theorem regexReplaceAux_id {sep : Char} : ∀ (f : Nat) (l : List Char), sep ∉ l →
    regexReplaceAux sep f l = l := by
  intro f
  induction f with
  | zero => intro l _; rfl
  | succ m ih =>
      intro l h
      cases l with
      | nil => rfl
      | cons c rest =>
          rw [regexReplaceAux, tryMatch_none_of_not_mem h]
          rw [ih rest fun hm => h (List.mem_cons_of_mem c hm)]

/-- With no occurrence of the separator the whole replacement is the
identity. -/
theorem regexReplace_id {sep : Char} {l : List Char} (h : sep ∉ l) :
    regexReplace sep l = l :=
  regexReplaceAux_id l.length l h

/-- The replacement on a single well-formed pattern A sep B yields the
braced rewrite and nothing more. -/
theorem regexReplace_single {A B : List Char} {sep : Char}
    (hsep : sep = '^' ∨ sep = '_') (hA : A ≠ []) (hB : B ≠ [])
    (hAa : ∀ c ∈ A, c.isAlphanum = true) (hBa : ∀ c ∈ B, c.isAlphanum = true)
    (hG : goodExp B = true) :
    regexReplace sep (A ++ sep :: B) = A ++ sep :: '\x7b' :: (B ++ ['\x7d']) := by
  obtain ⟨a, A2, rfl⟩ : ∃ a A2, A = a :: A2 := by
    cases A with
    | nil => exact absurd rfl hA
    | cons a A2 => exact ⟨a, A2, rfl⟩
  show regexReplaceAux sep ((A2 ++ sep :: B).length + 1) (a :: (A2 ++ sep :: B)) = _
  rw [regexReplaceAux]
  have hm := tryMatch_single hsep (List.cons_ne_nil a A2) hB hAa hBa hG
  rw [List.cons_append] at hm
  rw [hm]
  simp only [regexReplaceAux_nil]

/-- A non-alphanumeric character other than the separator does not occur
in a pattern A sep B with alphanumeric A and B. -/
theorem not_mem_plain {A B : List Char} {sep d : Char}
    (hAa : ∀ c ∈ A, c.isAlphanum = true) (hBa : ∀ c ∈ B, c.isAlphanum = true)
    (hd : d.isAlphanum = false) (hds : d ≠ sep) :
    d ∉ A ++ sep :: B := by
  intro hm
  rcases List.mem_append.mp hm with h | h
  · rw [hAa d h] at hd
    exact Bool.noConfusion hd
  · rcases List.mem_cons.mp h with h | h
    · exact hds h
    · rw [hBa d h] at hd
      exact Bool.noConfusion hd

/-- A non-alphanumeric character other than the separator and the braces
does not occur in the braced rewrite of a pattern A sep B. -/
theorem not_mem_braced {A B : List Char} {sep d : Char}
    (hAa : ∀ c ∈ A, c.isAlphanum = true) (hBa : ∀ c ∈ B, c.isAlphanum = true)
    (hd : d.isAlphanum = false) (hds : d ≠ sep)
    (hd1 : d ≠ '\x7b') (hd2 : d ≠ '\x7d') :
    d ∉ A ++ sep :: '\x7b' :: (B ++ ['\x7d']) := by
  intro hm
  rcases List.mem_append.mp hm with h | h
  · rw [hAa d h] at hd
    exact Bool.noConfusion hd
  · rcases List.mem_cons.mp h with h | h
    · exact hds h
    · rcases List.mem_cons.mp h with h | h
      · exact hd1 h
      · rcases List.mem_append.mp h with h | h
        · rw [hBa d h] at hd
          exact Bool.noConfusion hd
        · rcases List.mem_cons.mp h with h | h
          · exact hd2 h
          · exact absurd h (List.not_mem_nil d)

/-- The converter on a single well-formed pattern: no trimming happens, no
delimiter is detected, the matching pass rewrites the pattern and the
other pass is the identity, and the result is wrapped in dollars. -/
theorem convertChars_single {A B : List Char} {sep : Char}
    (hsep : sep = '^' ∨ sep = '_') (hA : A ≠ []) (hB : B ≠ [])
    (hAa : ∀ c ∈ A, c.isAlphanum = true) (hBa : ∀ c ∈ B, c.isAlphanum = true)
    (hG : goodExp B = true) :
    convertToLaTeXChars (A ++ sep :: B) =
      '$' :: ((A ++ sep :: '\x7b' :: (B ++ ['\x7d'])) ++ ['$']) := by
  obtain ⟨a, A2, rfl⟩ : ∃ a A2, A = a :: A2 := by
    cases A with
    | nil => exact absurd rfl hA
    | cons a A2 => exact ⟨a, A2, rfl⟩
  have ha : a.isAlphanum = true := hAa a (List.mem_cons_self a A2)
  have hsepws : isJsWhitespace sep = false := by
    rcases hsep with h | h <;> rw [h] <;> decide
  have hnws : ∀ c ∈ (a :: A2) ++ sep :: B, isJsWhitespace c = false := by
    intro c hc
    rcases List.mem_append.mp hc with h | h
    · exact not_ws_of_isAlphanum (hAa c h)
    · rcases List.mem_cons.mp h with h | h
      · rw [h]; exact hsepws
      · exact not_ws_of_isAlphanum (hBa c h)
  have htrim : jsTrim ((a :: A2) ++ sep :: B) = (a :: A2) ++ sep :: B :=
    jsTrim_eq_self_of_no_ws hnws
  have hnd : a ≠ '$' := ne_of_isAlphanum ha (by decide)
  have hnb : a ≠ '\\' := ne_of_isAlphanum ha (by decide)
  have hs1 : startsWithL ['$'] ((a :: A2) ++ sep :: B) = false := by
    simp [startsWithL, hnd]
  have hs2 : startsWithL ['\\', '('] ((a :: A2) ++ sep :: B) = false := by
    simp [startsWithL, hnb]
  have hs3 : startsWithL ['\\', '['] ((a :: A2) ++ sep :: B) = false := by
    simp [startsWithL, hnb]
  unfold convertToLaTeXChars
  rw [htrim]
  rw [if_neg (by simp)]
  simp only [hs1, hs2, hs3, Bool.false_or, Bool.or_self]
  rw [if_neg Bool.false_ne_true]
  rcases hsep with h | h
  · subst h
    have hr := regexReplace_single (A := a :: A2) (B := B)
      (Or.inl rfl) hA hB hAa hBa hG
    have hnm : ('_' : Char) ∉ (a :: A2) ++ '^' :: '\x7b' :: (B ++ ['\x7d']) :=
      not_mem_braced hAa hBa (by decide) (by decide) (by decide) (by decide)
    have hid := regexReplace_id hnm
    rw [hr, hid]
  · subst h
    have hnm : ('^' : Char) ∉ (a :: A2) ++ '_' :: B :=
      not_mem_plain hAa hBa (by decide) (by decide)
    have hid := regexReplace_id hnm
    have hr := regexReplace_single (A := a :: A2) (B := B)
      (Or.inr rfl) hA hB hAa hBa hG
    rw [hid, hr]

/-- Stripping a dollar-wrapped list removes exactly the wrapping pair and
trims the interior. -/
theorem stripChars_dollar (i : List Char) :
    stripLatexDelimitersChars ('$' :: (i ++ ['$'])) = jsTrim i := by
  have htrim : jsTrim ('$' :: (i ++ ['$'])) = '$' :: (i ++ ['$']) :=
    jsTrim_keep (by decide) (by decide) i
  have hform : '$' :: (i ++ ['$']) = ('$' :: i) ++ ['$'] := by simp
  have hs : startsWithL ['$'] ('$' :: (i ++ ['$'])) = true := by
    simp [startsWithL]
  have he : endsWithL ['$'] ('$' :: (i ++ ['$'])) = true := by
    unfold endsWithL
    rw [hform]
    have h2 : (('$' :: i) ++ ['$']).length - ['$'].length = ('$' :: i).length := by simp
    rw [h2, List.drop_left]
    simp
  unfold stripLatexDelimitersChars
  rw [htrim]
  simp only [hs, he, Bool.and_self, if_true]
  congr 1
  have hlen : (('$' :: i) ++ ['$']).length - 1 = ('$' :: i).length := by simp
  rw [hform, hlen, List.take_left]
  rfl

/-- Stripping a parenthesis-wrapped list removes exactly the wrapping pair
and trims the interior. -/
theorem stripChars_paren (i : List Char) :
    stripLatexDelimitersChars ('\\' :: '(' :: (i ++ ['\\', ')'])) = jsTrim i := by
  have hform0 : '\\' :: '(' :: (i ++ ['\\', ')']) =
      '\\' :: (('(' :: (i ++ ['\\'])) ++ [')']) := by simp
  have htrim : jsTrim ('\\' :: '(' :: (i ++ ['\\', ')'])) =
      '\\' :: '(' :: (i ++ ['\\', ')']) := by
    rw [hform0]
    exact jsTrim_keep (by decide) (by decide) _
  have hform : '\\' :: '(' :: (i ++ ['\\', ')']) =
      ('\\' :: '(' :: i) ++ ['\\', ')'] := by simp
  have hs1 : startsWithL ['$'] ('\\' :: '(' :: (i ++ ['\\', ')'])) = false := by
    simp [startsWithL]
  have hs2 : startsWithL ['\\', '('] ('\\' :: '(' :: (i ++ ['\\', ')'])) = true := by
    simp [startsWithL]
  have he2 : endsWithL ['\\', ')'] ('\\' :: '(' :: (i ++ ['\\', ')'])) = true := by
    unfold endsWithL
    rw [hform]
    have h2 : (('\\' :: '(' :: i) ++ ['\\', ')']).length - ['\\', ')'].length =
        ('\\' :: '(' :: i).length := by simp
    rw [h2, List.drop_left]
    simp
  unfold stripLatexDelimitersChars
  rw [htrim]
  simp only [hs1, hs2, he2, Bool.false_and, Bool.and_self, Bool.false_eq_true,
    if_false, if_true]
  congr 1
  have hlen : (('\\' :: '(' :: i) ++ ['\\', ')']).length - 2 =
      ('\\' :: '(' :: i).length := by simp
  rw [hform, hlen, List.take_left]
  rfl

/-- Stripping a bracket-wrapped list removes exactly the wrapping pair and
trims the interior. -/
theorem stripChars_bracket (i : List Char) :
    stripLatexDelimitersChars ('\\' :: '[' :: (i ++ ['\\', ']'])) = jsTrim i := by
  have hform0 : '\\' :: '[' :: (i ++ ['\\', ']']) =
      '\\' :: (('[' :: (i ++ ['\\'])) ++ [']']) := by simp
  have htrim : jsTrim ('\\' :: '[' :: (i ++ ['\\', ']'])) =
      '\\' :: '[' :: (i ++ ['\\', ']']) := by
    rw [hform0]
    exact jsTrim_keep (by decide) (by decide) _
  have hform : '\\' :: '[' :: (i ++ ['\\', ']']) =
      ('\\' :: '[' :: i) ++ ['\\', ']'] := by simp
  have hs1 : startsWithL ['$'] ('\\' :: '[' :: (i ++ ['\\', ']'])) = false := by
    simp [startsWithL]
  have hs2 : startsWithL ['\\', '('] ('\\' :: '[' :: (i ++ ['\\', ']'])) = false := by
    simp [startsWithL]
  have hs3 : startsWithL ['\\', '['] ('\\' :: '[' :: (i ++ ['\\', ']'])) = true := by
    simp [startsWithL]
  have he3 : endsWithL ['\\', ']'] ('\\' :: '[' :: (i ++ ['\\', ']'])) = true := by
    unfold endsWithL
    rw [hform]
    have h2 : (('\\' :: '[' :: i) ++ ['\\', ']']).length - ['\\', ']'].length =
        ('\\' :: '[' :: i).length := by simp
    rw [h2, List.drop_left]
    simp
  unfold stripLatexDelimitersChars
  rw [htrim]
  simp only [hs1, hs2, hs3, he3, Bool.false_and, Bool.and_self, Bool.false_eq_true,
    if_false, if_true]
  congr 1
  have hlen : (('\\' :: '[' :: i) ++ ['\\', ']']).length - 2 =
      ('\\' :: '[' :: i).length := by simp
  rw [hform, hlen, List.take_left]
  rfl

/-- When no recognized delimiter pair wraps the trimmed input the stripper
returns the trimmed input. -/
theorem stripChars_no_pair {l : List Char} (h : hasDelimPair (jsTrim l) = false) :
    stripLatexDelimitersChars l = jsTrim l := by
  unfold hasDelimPair at h
  rw [Bool.or_eq_false_iff] at h
  rw [Bool.or_eq_false_iff] at h
  obtain ⟨⟨h1, h2⟩, h3⟩ := h
  unfold stripLatexDelimitersChars
  simp only [h1, h2, h3, Bool.false_eq_true, if_false]

/-- Claim C7 (amended): for a well-formed shorthand input consisting of a
single pattern, nonempty alphanumeric base, separator (caret or
underscore) and nonempty alphanumeric exponent, where the exponent is
additionally all digits or does not begin with a digit (the shapes the
ordered alternation of the source pattern captures whole), stripping the
converted input removes exactly the delimiters the conversion added and
yields the braced form. -/
theorem convert_strip_roundtrip (A B : List Char) (sep : Char)
    (hsep : sep = '^' ∨ sep = '_') (hA : A ≠ []) (hB : B ≠ [])
    (hAa : ∀ c ∈ A, c.isAlphanum = true) (hBa : ∀ c ∈ B, c.isAlphanum = true)
    (hG : goodExp B = true) :
    stripLatexDelimiters (convertToLaTeX (String.mk (A ++ sep :: B))) =
      String.mk (specBracedForm A sep B) := by
  unfold stripLatexDelimiters convertToLaTeX
  congr 1
  show stripLatexDelimitersChars (convertToLaTeXChars (A ++ sep :: B)) =
    specBracedForm A sep B
  rw [convertChars_single hsep hA hB hAa hBa hG, stripChars_dollar]
  obtain ⟨a, A2, rfl⟩ : ∃ a A2, A = a :: A2 := by
    cases A with
    | nil => exact absurd rfl hA
    | cons a A2 => exact ⟨a, A2, rfl⟩
  have hform : (a :: A2) ++ sep :: '\x7b' :: (B ++ ['\x7d']) =
      a :: ((A2 ++ sep :: '\x7b' :: B) ++ ['\x7d']) := by simp
  rw [hform]
  rw [jsTrim_keep (not_ws_of_isAlphanum (hAa a (List.mem_cons_self a A2))) (by decide) _]
  simp [specBracedForm]

/-- Witness for C7 on the concrete input of the specification example. -/
theorem convert_strip_roundtrip_witness :
    stripLatexDelimiters (convertToLaTeX (String.mk ['x', '^', '2'])) =
      String.mk (specBracedForm ['x'] '^' ['2']) :=
  convert_strip_roundtrip ['x'] ['2'] '^' (Or.inl rfl) (by decide) (by decide)
    (by decide) (by decide) (by decide)

/-- Counterexample for C7 as stated: the input with base x and maximal
alphanumeric exponent run 2a after the caret is a single
exponent pattern, yet the round trip yields x caret brace 2 close-brace a,
not the braced form with the whole run 2a inside the braces, because the
ordered alternation captures only the digit run 2. -/
theorem convert_strip_roundtrip_counterexample :
    stripLatexDelimiters (convertToLaTeX (String.mk ['x', '^', '2', 'a'])) =
      String.mk ['x', '^', '\x7b', '2', '\x7d', 'a']
    ∧ String.mk ['x', '^', '\x7b', '2', '\x7d', 'a'] ≠
      String.mk (specBracedForm ['x'] '^' ['2', 'a'])
    ∧ (∀ c ∈ (['x'] : List Char), c.isAlphanum = true)
    ∧ (∀ c ∈ (['2', 'a'] : List Char), c.isAlphanum = true)
    ∧ (['x', '^', '2', 'a'] : List Char) = ['x'] ++ '^' :: ['2', 'a'] :=
  ⟨by decide, by decide, by decide, by decide, by decide⟩

/-- Claim C8 (amended): with no recognized delimiter pair on the trimmed
input the stripper returns the trimmed input (so the input itself exactly
when it carries no leading or trailing whitespace), and with a recognized
pair it strips exactly that one pair and trims the interior. -/
theorem stripLatex_amended (s : List Char) (i : List Char) :
    (hasDelimPair (jsTrim s) = false →
      stripLatexDelimiters (String.mk s) = String.mk (jsTrim s))
    ∧ stripLatexDelimiters (String.mk ('$' :: (i ++ ['$']))) = String.mk (jsTrim i)
    ∧ stripLatexDelimiters (String.mk ('\\' :: '(' :: (i ++ ['\\', ')']))) =
        String.mk (jsTrim i)
    ∧ stripLatexDelimiters (String.mk ('\\' :: '[' :: (i ++ ['\\', ']']))) =
        String.mk (jsTrim i) := by
  refine ⟨fun h => ?_, ?_, ?_, ?_⟩
  · unfold stripLatexDelimiters
    congr 1
    exact stripChars_no_pair h
  · unfold stripLatexDelimiters
    congr 1
    exact stripChars_dollar i
  · unfold stripLatexDelimiters
    congr 1
    exact stripChars_paren i
  · unfold stripLatexDelimiters
    congr 1
    exact stripChars_bracket i

/-- Witness for C8 on a concrete delimiter-free input. -/
theorem stripLatex_amended_witness :
    stripLatexDelimiters (String.mk ['x']) = String.mk (jsTrim ['x']) :=
  (stripLatex_amended ['x'] ['y']).1 (by decide)

/-- Counterexample for C8 as stated: the input space x space contains no
recognized delimiter pair, yet the stripper does not return it unchanged,
it returns the trimmed x. -/
theorem stripLatex_not_identity_counterexample :
    hasDelimPair (jsTrim [' ', 'x', ' ']) = false
    ∧ hasDelimPair [' ', 'x', ' '] = false
    ∧ stripLatexDelimiters (String.mk [' ', 'x', ' ']) = String.mk ['x']
    ∧ String.mk [' ', 'x', ' '] ≠ String.mk ['x'] :=
  ⟨by decide, by decide, by decide, by decide⟩
